import Mathlib

/-!
Verification of the GitDoku sudoku badge application: a shallow embedding of
its puzzle engine (backtracking solver, board generator, carving, validation),
its PRNG paths, and its session state machine, together with theorems about
the specified properties (solver correctness, generated-board invariants,
carve counts, given-cell immutability, mistake counting, pause semantics,
high-score ledger updates, and RNG sample widths).

Grids are embedded as total functions from (row, col) to the cell value, with
the playable region being rows and columns 0..8, exactly the indices the
program ever touches. Mutation in the Python source becomes functional update
threaded through the recursion; the backtracking solver keeps the source's
mutate/undo discipline literally (place a candidate, recurse, reset the cell
to 0 on failure). The external entropy source is an arbitrary stream of
naturals, consumed at an explicit cursor. Unbounded retry recursions of the
source are indexed by an explicit fuel parameter; running out of fuel models
divergence of the original recursion, not an error path of the program.
-/

/-! Grids -/

abbrev Grid : Type := Nat → Nat → Nat

/-- Functional update of one cell: the embedding of board[r][c] = v. -/
def setCell (g : Grid) (r c v : Nat) : Grid := fun r' c' =>
  if r' = r then (if c' = c then v else g r' c') else g r' c'

def zeroGrid : Grid := fun _ _ => 0

/-- Build a grid from a row-major list of rows (cells outside default to 0). -/
def gridOfRows (rows : List (List Nat)) : Grid := fun r c =>
  (rows.getD r []).getD c 0

/-- All 81 cells in row-major order, as the solver's double loop visits them. -/
def cellsRM : List (Nat × Nat) := (List.range 81).map fun k => (k / 9, k % 9)

/-! Constraint checks, embedding _is_valid: the row loop, the column loop and
the 3x3 box loop, each skipping the target cell itself. -/

def is_valid (board : Grid) (row col num : Nat) : Bool :=
  ((List.range 9).all fun x => decide (x = col) || decide (board row x ≠ num)) &&
  ((List.range 9).all fun x => decide (x = row) || decide (board x col ≠ num)) &&
  ((List.range 3).all fun i => (List.range 3).all fun j =>
    (decide (3 * (row / 3) + i = row) && decide (3 * (col / 3) + j = col)) ||
    decide (board (3 * (row / 3) + i) (3 * (col / 3) + j) ≠ num))

/-! The backtracking solver, embedding _solve_sudoku. The source scans cells
in row-major order and branches on the first empty one; the recursion is
indexed by fuel, 82 being more than the 81 cells so the fuel never runs out. -/

/-- First empty cell in row-major order, or none when the grid is full. -/
def firstEmpty (g : Grid) : Option (Nat × Nat) :=
  cellsRM.find? fun p => g p.1 p.2 == 0

def nums1to9 : List Nat := [1, 2, 3, 4, 5, 6, 7, 8, 9]

/-- Candidate loop at the first empty cell (r, c): place num, recurse through
rec, and on failure reset the cell to 0 before trying the next candidate. -/
def tryNums (rec : Grid → Bool × Grid) (g : Grid) (r c : Nat) :
    List Nat → Bool × Grid
  | [] => (false, g)
  | n :: rest =>
    if is_valid g r c n then
      match rec (setCell g r c n) with
      | (true, g2) => (true, g2)
      | (false, g2) => tryNums rec (setCell g2 r c 0) r c rest
    else tryNums rec g r c rest

def solveFuel : Nat → Grid → Bool × Grid
  | 0, g => (false, g)
  | fuel + 1, g =>
    match firstEmpty g with
    | none => (true, g)
    | some (r, c) => tryNums (solveFuel fuel) g r c nums1to9

/-- The solver as called by the program: success flag and resulting grid. -/
def solve_sudoku (g : Grid) : Bool × Grid := solveFuel 82 g

/-- Number of empty cells in the playable 9x9 region. -/
def numEmpty (g : Grid) : Nat :=
  ((Finset.range 9 ×ˢ Finset.range 9).filter fun p => g p.1 p.2 = 0).card

/-! Specification-level predicates over grids. -/

/-- Two cells constrain each other when they share a row, a column or a box. -/
abbrev SameUnit (r c r' c' : Nat) : Prop :=
  r' = r ∨ c' = c ∨ (r' / 3 = r / 3 ∧ c' / 3 = c / 3)

/-- Every filled cell passes the program's own validity check. -/
abbrev ConsistentG (g : Grid) : Prop :=
  ∀ r < 9, ∀ c < 9, g r c ≠ 0 → is_valid g r c (g r c) = true

abbrev Filled9 (g : Grid) : Prop := ∀ r < 9, ∀ c < 9, g r c ≠ 0

abbrev WellFormed (g : Grid) : Prop := ∀ r < 9, ∀ c < 9, g r c ≤ 9

/-- The second grid agrees with every filled cell of the first. -/
abbrev ExtendsG (g g' : Grid) : Prop :=
  ∀ r < 9, ∀ c < 9, g r c ≠ 0 → g' r c = g r c

/-- A fully solved sudoku grid. -/
abbrev Solved (S : Grid) : Prop := Filled9 S ∧ WellFormed S ∧ ConsistentG S

/-- S is a sudoku completion of g: solved, and consistent with g's filled cells. -/
abbrev Completion (g S : Grid) : Prop := Solved S ∧ ExtendsG g S

/-- Cells of the solver's output are either carried over or placed in 1..9. -/
abbrev SolveExtends (g g' : Grid) : Prop :=
  ∀ r < 9, ∀ c < 9, g' r c = g r c ∨ (g r c = 0 ∧ 1 ≤ g' r c ∧ g' r c ≤ 9)

/-- Soundness package for a successful solver run from g to g'. -/
abbrev SoundAt (g g' : Grid) : Prop :=
  SolveExtends g g' ∧ Filled9 g' ∧ (ConsistentG g → ConsistentG g')

/-- Cell i (0..8) of box b (0..8), boxes numbered row-major. -/
def boxCell (b i : Nat) : Nat × Nat := (3 * (b / 3) + i / 3, 3 * (b % 3) + i % 3)

/-- Every row, column and box contains each value of 1..9 exactly once. -/
abbrev UnitsPerm (g : Grid) : Prop :=
  (∀ r < 9, ∀ v, 1 ≤ v → v ≤ 9 →
    (∃ c < 9, g r c = v) ∧ ∀ c1 < 9, ∀ c2 < 9, g r c1 = v → g r c2 = v → c1 = c2) ∧
  (∀ c < 9, ∀ v, 1 ≤ v → v ≤ 9 →
    (∃ r < 9, g r c = v) ∧ ∀ r1 < 9, ∀ r2 < 9, g r1 c = v → g r2 c = v → r1 = r2) ∧
  (∀ b < 9, ∀ v, 1 ≤ v → v ≤ 9 →
    (∃ i < 9, g (boxCell b i).1 (boxCell b i).2 = v) ∧
    ∀ i < 9, ∀ j < 9, g (boxCell b i).1 (boxCell b i).2 = v →
      g (boxCell b j).1 (boxCell b j).2 = v → i = j)

/-! The PRNG, embedding _getrandbits and _randint. The primary path draws n
bits from the platform entropy source (modelled as an arbitrary natural,
reduced to n bits); the fallback path is the LCG with its 24-bit output mask. -/

abbrev Rng : Type := Nat → Nat

/-- Primary path of _getrandbits: n platform entropy bits. -/
def getrandbits_urandom (entropy n : Nat) : Nat := entropy % 2 ^ n

/-- One LCG step of the fallback path, state masked to 31 bits. -/
def lcg_next (s : Nat) : Nat := (1103515245 * s + 12345) &&& 0x7fffffff

/-- Fallback path of _getrandbits: step the LCG, return at most min n 24 bits
together with the new state. -/
def getrandbits_fallback (n s : Nat) : Nat × Nat :=
  (lcg_next s &&& ((1 <<< min n 24) - 1), lcg_next s)

/-- The 30-bit sample _randint draws, primary path, at stream position k. -/
def getrandbits30 (rng : Rng) (k : Nat) : Nat := getrandbits_urandom (rng k) 30

/-- Embedding of _randint applied to a drawn sample r: a + r mod the span. -/
def randint (a b r : Nat) : Nat := a + r % (b - a + 1)

/-! The generator, embedding _generate_full_board, and carving. -/

/-- Simultaneous swap nums[i], nums[j] = nums[j], nums[i]. -/
def fy_swap (l : List Nat) (i j : Nat) : List Nat :=
  (l.set i (l.getD j 0)).set j (l.getD i 0)

/-- One iteration of the Fisher-Yates loop at index i. -/
def shuffle_step (rng : Rng) (st : List Nat × Nat) (i : Nat) : List Nat × Nat :=
  (fy_swap st.1 i (randint 0 i (getrandbits30 rng st.2)), st.2 + 1)

/-- Fisher-Yates shuffle of [1..9] with i running 8 down to 1. -/
def shuffle9 (rng : Rng) (k : Nat) : List Nat × Nat :=
  [8, 7, 6, 5, 4, 3, 2, 1].foldl (shuffle_step rng) ([1, 2, 3, 4, 5, 6, 7, 8, 9], k)

/-- Write nums into the 3x3 box whose corner is (box, box), index 3*i+j as the
source's nested loops assign it. -/
def placeBox (g : Grid) (box : Nat) (nums : List Nat) : Grid := fun r c =>
  if box ≤ r ∧ r < box + 3 ∧ box ≤ c ∧ c < box + 3 then
    nums.getD (3 * (r - box) + (c - box)) 0
  else g r c

/-- Seed the three diagonal boxes with independent shuffles of 1..9. -/
def seedDiagonal (rng : Rng) (k : Nat) : Grid × Nat :=
  let p0 := shuffle9 rng k
  let p1 := shuffle9 rng p0.2
  let p2 := shuffle9 rng p1.2
  (placeBox (placeBox (placeBox zeroGrid 0 p0.1) 3 p1.1) 6 p2.1, p2.2)

/-- Embedding of _generate_full_board: seed the diagonal, solve, and on solver
failure retry from scratch; the fuel indexes the source's unbounded recursion. -/
def generate_full_board : Nat → Rng → Nat → Option (Grid × Nat)
  | 0, _, _ => none
  | fuel + 1, rng, k =>
    let p := seedDiagonal rng k
    let res := solve_sudoku p.1
    if res.1 then some (res.2, p.2) else generate_full_board fuel rng p.2

/-- Embedding of _validate_board: for each filled cell, clear it, check the
value is still placeable there, restore it; pure form of the same check. -/
def validate_board (g : Grid) : Bool :=
  cellsRM.all fun p =>
    g p.1 p.2 == 0 || is_valid (setCell g p.1 p.2 0) p.1 p.2 (g p.1 p.2)

/-- Removal counts per difficulty: Easy=40, Medium=50, Hard=60. -/
def remove_count (d : Nat) : Nat := [40, 50, 60].getD d 0

/-- Embedding of _remove_numbers: n times pick a random index into the list of
still-present cells, pop that cell, and zero it on the board. -/
def remove_numbers : Nat → List (Nat × Nat) → Grid → Rng → Nat → Grid × Nat
  | 0, _, b, _, k => (b, k)
  | n + 1, cells, b, rng, k =>
    if cells = [] then (b, k)
    else
      let idx := randint 0 (cells.length - 1) (getrandbits30 rng k)
      let p := cells.getD idx (0, 0)
      remove_numbers n (cells.eraseIdx idx) (setCell b p.1 p.2 0) rng (k + 1)

/-! The session state machine. -/

inductive Screen : Type
  | title
  | play
  | pause
  | gameover
deriving DecidableEq

/-- The program's state dictionary. -/
structure GameState : Type where
  screen : Screen
  difficulty : Nat
  board : Grid
  solution : Grid
  given : Nat → Nat → Bool
  cursor_x : Nat
  cursor_y : Nat
  mistakes : Nat
  time : Nat
  start_time : Nat
  hiscores : List Nat

/-- Per-frame button state; pause_combo stands for the B+C (or HOME) gesture. -/
structure Input : Type where
  up : Bool
  down : Bool
  a : Bool
  b : Bool
  c : Bool
  pause_combo : Bool

/-- Tail of _new_game once the solution grid is in hand: copy it, carve it,
derive the given mask from the non-zero cells, reset cursor, mistakes and
timer; returns the new state and the updated stream cursor. -/
def install_puzzle (s : GameState) (solution : Grid) (rng : Rng) (k ticks : Nat) :
    GameState × Nat :=
  let p := remove_numbers (remove_count s.difficulty) cellsRM solution rng k
  ({ s with
      board := p.1
      solution := solution
      given := fun r c => p.1 r c != 0
      cursor_x := 0
      cursor_y := 0
      mistakes := 0
      start_time := ticks
      time := 0 }, p.2)

/-- Embedding of _new_game: generate a full board, validate it, retry the
whole generation when validation fails; fuel indexes the retry recursion. -/
def new_game : Nat → Nat → Rng → Nat → Nat → GameState → Option (GameState × Nat)
  | 0, _, _, _, _, _ => none
  | fuel + 1, gfuel, rng, k, ticks, s =>
    match generate_full_board gfuel rng k with
    | none => none
    | some (solution, k1) =>
      if validate_board solution then some (install_puzzle s solution rng k1 ticks)
      else new_game fuel gfuel rng k1 ticks s

def to_title (s : GameState) : GameState := { s with screen := Screen.title }

def to_pause (s : GameState) : GameState := { s with screen := Screen.pause }

/-- Embedding of _to_gameover: switch screen, and overwrite the difficulty's
record when the session time is strictly lower. -/
def to_gameover (s : GameState) : GameState :=
  let s1 := { s with screen := Screen.gameover }
  if s1.time < s1.hiscores.getD s1.difficulty 0 then
    { s1 with hiscores := s1.hiscores.set s1.difficulty s1.time }
  else s1

/-- Embedding of _to_game: enter play and build a fresh puzzle. -/
def to_game (fuel gfuel : Nat) (rng : Rng) (k ticks : Nat) (s : GameState) :
    Option (GameState × Nat) :=
  new_game fuel gfuel rng k ticks { s with screen := Screen.play }

/-- Embedding of _is_complete: the board matches the solution cell for cell. -/
def is_complete (s : GameState) : Bool :=
  (List.range 9).all fun r => (List.range 9).all fun c =>
    s.board r c == s.solution r c

/-- Embedding of _place_number: refuse given cells, write the value, count a
mistake for a wrong non-zero value, then re-check completion. -/
def place_number (s : GameState) (num : Nat) : GameState :=
  if s.given s.cursor_y s.cursor_x then s
  else
    let s1 := { s with board := setCell s.board s.cursor_y s.cursor_x num }
    let s2 :=
      if num ≠ 0 ∧ num ≠ s1.solution s.cursor_y s.cursor_x then
        { s1 with mistakes := s1.mistakes + 1 }
      else s1
    if is_complete s2 then to_gameover s2 else s2

/-- Embedding of _hint: write the solution value into a non-given cursor cell
and re-check completion. -/
def hint (s : GameState) : GameState :=
  if s.given s.cursor_y s.cursor_x then s
  else
    let s1 :=
      { s with board :=
          setCell s.board s.cursor_y s.cursor_x (s.solution s.cursor_y s.cursor_x) }
    if is_complete s1 then to_gameover s1 else s1

/-- Embedding of _move_cursor: both axes wrap modulo 9. -/
def move_cursor (s : GameState) (dx dy : Int) : GameState :=
  { s with
      cursor_x := (((s.cursor_x : Int) + dx) % 9).toNat
      cursor_y := (((s.cursor_y : Int) + dy) % 9).toNat }

/-- A value shown green (given, non-zero) in the cursor's row or column; these
are the values the B-cycle skips. -/
def locked (s : GameState) (v : Nat) : Bool :=
  (List.range 9).any fun x =>
    (s.given s.cursor_y x && (s.board s.cursor_y x != 0) &&
      (s.board s.cursor_y x == v)) ||
    (s.given x s.cursor_x && (s.board x s.cursor_x != 0) &&
      (s.board x s.cursor_x == v))

/-- The B-button branch of _handle_play: cycle to the next value (mod 10) that
is 0 or not locked, and place it. -/
def handle_play_b (s : GameState) : GameState :=
  if s.given s.cursor_y s.cursor_x then s
  else
    let current := s.board s.cursor_y s.cursor_x
    match (List.range' 1 10).find? (fun attempt =>
        (current + attempt) % 10 == 0 || !locked s ((current + attempt) % 10)) with
    | some attempt => place_number s ((current + attempt) % 10)
    | none => s

/-- Embedding of _handle_play: refresh the timer from the start tick, then the
pause check, then the movement / number-entry button chain. -/
def handle_play (ticks : Nat) (inp : Input) (s : GameState) : GameState :=
  let s1 := { s with time := (ticks - s.start_time) / 1000 }
  if inp.pause_combo then to_pause s1
  else if inp.up then move_cursor s1 0 (-1)
  else if inp.down then move_cursor s1 0 1
  else if inp.a then move_cursor s1 (-1) 0
  else if inp.c then move_cursor s1 1 0
  else if inp.b then handle_play_b s1
  else s1

/-- Embedding of _handle_pause: A resumes, B returns to the title. -/
def handle_pause (inp : Input) (s : GameState) : GameState :=
  if inp.a then { s with screen := Screen.play }
  else if inp.b then to_title s
  else s

/-- The invariant of claim C3: a given cell always holds the solution value. -/
abbrev InvGiven (s : GameState) : Prop :=
  ∀ r < 9, ∀ c < 9, s.given r c = true → s.board r c = s.solution r c

/-! Concrete instances used by witnesses and counterexamples. -/

/-- A valid fully solved grid (the cyclic-shift construction). -/
def gSol : Grid := gridOfRows
  [[1, 2, 3, 4, 5, 6, 7, 8, 9],
   [4, 5, 6, 7, 8, 9, 1, 2, 3],
   [7, 8, 9, 1, 2, 3, 4, 5, 6],
   [2, 3, 4, 5, 6, 7, 8, 9, 1],
   [5, 6, 7, 8, 9, 1, 2, 3, 4],
   [8, 9, 1, 2, 3, 4, 5, 6, 7],
   [3, 4, 5, 6, 7, 8, 9, 1, 2],
   [6, 7, 8, 9, 1, 2, 3, 4, 5],
   [9, 1, 2, 3, 4, 5, 6, 7, 8]]

/-- gSol with one cell emptied: a solvable puzzle. -/
def gW : Grid := setCell gSol 0 0 0

/-- gSol with cell (0,0) overwritten by 2: full but with a duplicate 2 in row
0, so no completion exists, yet the solver sees no empty cell. -/
def gBad : Grid := setCell gSol 0 0 2

/-- A grid that is consistent but admits no completion: row 0 holds 1..8 with
cell (0,8) empty, and 9 sits at (1,8), blocking the only remaining value. -/
def gStuck : Grid := gridOfRows
  [[1, 2, 3, 4, 5, 6, 7, 8, 0],
   [0, 0, 0, 0, 0, 0, 0, 0, 9]]

/-- Entropy stream driving generation to a near-backtrack-free solver run. -/
def rngW : Rng := fun k =>
  [0, 3, 4, 3, 1, 3, 2, 0, 0, 4, 3, 2, 2, 2, 2, 0, 1, 2, 1, 3, 2, 1, 1, 0].getD k 0

/-- The state dictionary as the program initializes it. -/
def initState : GameState where
  screen := Screen.title
  difficulty := 0
  board := zeroGrid
  solution := zeroGrid
  given := fun _ _ => false
  cursor_x := 0
  cursor_y := 0
  mistakes := 0
  time := 0
  start_time := 0
  hiscores := [999999, 999999, 999999]

/-- A mid-session play state: board gW, solution gSol, cell (0,0) open. -/
def sPlay : GameState where
  screen := Screen.play
  difficulty := 0
  board := gW
  solution := gSol
  given := fun r c => gW r c != 0
  cursor_x := 0
  cursor_y := 0
  mistakes := 0
  time := 0
  start_time := 0
  hiscores := [999999, 999999, 999999]

def inpNone : Input := ⟨false, false, false, false, false, false⟩

def inpPause : Input := { inpNone with pause_combo := true }

def inpA : Input := { inpNone with a := true }

/-- Frame 1 of the pause counterexample run: play at tick 1000. -/
def pauseRun1 : GameState := handle_play 1000 inpNone sPlay

/-- Frame 2: the pause combo at tick 2000. -/
def pauseRun2 : GameState := handle_play 2000 inpPause pauseRun1

/-- Frame 3: resume with A after a long pause. -/
def pauseRun3 : GameState := handle_pause inpA pauseRun2

/-- Frame 4: first play frame after resuming, at tick 101000. -/
def pauseRun4 : GameState := handle_play 101000 inpNone pauseRun3

/-- A completed Medium session at 120 s over an all-sentinel ledger. -/
def s120 : GameState := { sPlay with time := 120, difficulty := 1 }

/-- A later 150 s Medium session over the ledger holding 120. -/
def s150 : GameState :=
  { sPlay with time := 150, difficulty := 1, hiscores := [999999, 120, 999999] }

/-- A later 90 s Medium session over the ledger holding 120. -/
def s90 : GameState :=
  { sPlay with time := 90, difficulty := 1, hiscores := [999999, 120, 999999] }

/-- A Medium session of 1000000 s over an all-sentinel ledger. -/
def sLong : GameState := { sPlay with time := 1000000, difficulty := 1 }

/-! Basic lemmas about cells and updates. -/

theorem setCell_self (g : Grid) (r c v : Nat) : setCell g r c v r c = v := by
  simp [setCell]

theorem setCell_ne (g : Grid) (r c v r' c' : Nat) (h : ¬(r' = r ∧ c' = c)) :
    setCell g r c v r' c' = g r' c' := by
  by_cases h1 : r' = r <;> by_cases h2 : c' = c <;> simp_all [setCell]

theorem setCell_cancel (g : Grid) (r c v : Nat) (h : g r c = 0) :
    setCell (setCell g r c v) r c 0 = g := by
  funext r' c'
  by_cases h1 : r' = r <;> by_cases h2 : c' = c <;>
    simp_all [setCell]

theorem mem_cellsRM {p : Nat × Nat} : p ∈ cellsRM ↔ p.1 < 9 ∧ p.2 < 9 := by
  simp only [cellsRM, List.mem_map, List.mem_range]
  constructor
  · rintro ⟨k, hk, rfl⟩
    exact ⟨by omega, by omega⟩
  · rintro ⟨h1, h2⟩
    refine ⟨9 * p.1 + p.2, by omega, ?_⟩
    obtain ⟨a, b⟩ := p
    simp only [Prod.mk.injEq]
    omega

theorem firstEmpty_none {g : Grid} (h : firstEmpty g = none) :
    ∀ r < 9, ∀ c < 9, g r c ≠ 0 := by
  intro r hr c hc
  have := List.find?_eq_none.mp h (r, c) (mem_cellsRM.mpr ⟨hr, hc⟩)
  simpa using this

theorem firstEmpty_some {g : Grid} {r c : Nat} (h : firstEmpty g = some (r, c)) :
    r < 9 ∧ c < 9 ∧ g r c = 0 := by
  have h1 := List.find?_some h
  have h2 := mem_cellsRM.mp (List.mem_of_find?_eq_some h)
  simp only [beq_iff_eq] at h1
  exact ⟨h2.1, h2.2, h1⟩

/-! Characterization of the validity check through the SameUnit relation. -/

theorem is_valid_iff {g : Grid} {row col num : Nat} (hr : row < 9) (hc : col < 9) :
    is_valid g row col num = true ↔
      ∀ r' < 9, ∀ c' < 9, SameUnit row col r' c' → ¬(r' = row ∧ c' = col) →
        g r' c' ≠ num := by
  simp only [is_valid, Bool.and_eq_true, List.all_eq_true, List.mem_range,
    Bool.or_eq_true, decide_eq_true_eq]
  constructor
  · rintro ⟨⟨hrow, hcol⟩, hbox⟩ r' hr' c' hc' hunit hne
    rcases hunit with h | h | ⟨h1, h2⟩
    · subst h
      rcases hrow c' hc' with h' | h'
      · exact absurd ⟨rfl, h'⟩ hne
      · exact h'
    · subst h
      rcases hcol r' hr' with h' | h'
      · exact absurd ⟨h', rfl⟩ hne
      · exact h'
    · have hi : 3 * (row / 3) + (r' - 3 * (row / 3)) = r' := by omega
      have hj : 3 * (col / 3) + (c' - 3 * (col / 3)) = c' := by omega
      have := hbox (r' - 3 * (row / 3)) (by omega) (c' - 3 * (col / 3)) (by omega)
      rw [hi, hj] at this
      rcases this with ⟨ha, hb⟩ | h'
      · exact absurd ⟨ha, hb⟩ hne
      · exact h'
  · intro h
    refine ⟨⟨?_, ?_⟩, ?_⟩
    · intro x hx
      by_cases hxc : x = col
      · exact Or.inl hxc
      · exact Or.inr (h row hr x hx (Or.inl rfl) (by tauto))
    · intro x hx
      by_cases hxr : x = row
      · exact Or.inl hxr
      · exact Or.inr (h x hx col hc (Or.inr (Or.inl rfl)) (by tauto))
    · intro i hi j hj
      by_cases heq : 3 * (row / 3) + i = row ∧ 3 * (col / 3) + j = col
      · exact Or.inl heq
      · refine Or.inr (h _ (by omega) _ (by omega) ?_ heq)
        right; right
        constructor <;> omega

theorem sameUnit_symm {r c r' c' : Nat} (h : SameUnit r c r' c') :
    SameUnit r' c' r c := by
  rcases h with h | h | h
  · exact Or.inl h.symm
  · exact Or.inr (Or.inl h.symm)
  · exact Or.inr (Or.inr ⟨h.1.symm, h.2.symm⟩)

/-- The validity check never reads its target cell, so it is invariant under
grids that agree everywhere else. -/
theorem is_valid_congr {g1 g2 : Grid} {row col num : Nat} (hr : row < 9)
    (hc : col < 9)
    (h : ∀ r' < 9, ∀ c' < 9, ¬(r' = row ∧ c' = col) → g1 r' c' = g2 r' c') :
    is_valid g1 row col num = is_valid g2 row col num := by
  by_cases h1 : is_valid g2 row col num = true
  · rw [h1]
    rw [is_valid_iff hr hc]
    intro r' hr' c' hc' hu hne
    rw [h r' hr' c' hc' hne]
    exact (is_valid_iff hr hc).mp h1 r' hr' c' hc' hu hne
  · rw [Bool.not_eq_true] at h1
    rw [h1, Bool.eq_false_iff]
    intro hcon
    rw [Bool.eq_false_iff] at h1
    apply h1
    rw [is_valid_iff hr hc]
    intro r' hr' c' hc' hu hne
    rw [← h r' hr' c' hc' hne]
    exact (is_valid_iff hr hc).mp hcon r' hr' c' hc' hu hne

theorem is_valid_setCell_self (g : Grid) (row col num v : Nat) (hr : row < 9)
    (hc : col < 9) :
    is_valid (setCell g row col v) row col num = is_valid g row col num := by
  apply is_valid_congr hr hc
  intro r' _ c' _ hne
  exact setCell_ne g row col v r' c' hne

/-! Counting empty cells. -/

theorem numEmpty_le (g : Grid) : numEmpty g ≤ 81 := by
  have h := Finset.card_filter_le (Finset.range 9 ×ˢ Finset.range 9)
    (fun p => g p.1 p.2 = 0)
  simpa using h

theorem numEmpty_setCell_place {g : Grid} {r c v : Nat} (hr : r < 9) (hc : c < 9)
    (h0 : g r c = 0) (hv : v ≠ 0) :
    numEmpty (setCell g r c v) + 1 = numEmpty g := by
  classical
  have hmem : (r, c) ∈ (Finset.range 9 ×ˢ Finset.range 9).filter
      (fun p => g p.1 p.2 = 0) := by
    simp [Finset.mem_filter, Finset.mem_product, hr, hc, h0]
  have hset : ((Finset.range 9 ×ˢ Finset.range 9).filter
        fun p => setCell g r c v p.1 p.2 = 0)
      = ((Finset.range 9 ×ˢ Finset.range 9).filter
        fun p => g p.1 p.2 = 0).erase (r, c) := by
    ext p
    simp only [Finset.mem_filter, Finset.mem_erase, Finset.mem_product,
      Finset.mem_range]
    constructor
    · rintro ⟨⟨hp1, hp2⟩, hz⟩
      by_cases hpc : p = (r, c)
      · subst hpc
        rw [setCell_self] at hz
        exact absurd hz hv
      · have hne : ¬(p.1 = r ∧ p.2 = c) := fun he => hpc (Prod.ext_iff.mpr he)
        rw [setCell_ne g r c v p.1 p.2 hne] at hz
        exact ⟨hpc, ⟨hp1, hp2⟩, hz⟩
    · rintro ⟨hpc, ⟨hp1, hp2⟩, hz⟩
      have hne : ¬(p.1 = r ∧ p.2 = c) := fun he => hpc (Prod.ext_iff.mpr he)
      rw [setCell_ne g r c v p.1 p.2 hne]
      exact ⟨⟨hp1, hp2⟩, hz⟩
  have hpos : 0 < ((Finset.range 9 ×ˢ Finset.range 9).filter
      fun p => g p.1 p.2 = 0).card := Finset.card_pos.mpr ⟨_, hmem⟩
  unfold numEmpty
  rw [hset, Finset.card_erase_of_mem hmem]
  omega

theorem numEmpty_setCell_zero {g : Grid} {r c : Nat} (hr : r < 9) (hc : c < 9)
    (h0 : g r c ≠ 0) :
    numEmpty (setCell g r c 0) = numEmpty g + 1 := by
  classical
  have hnot : (r, c) ∉ (Finset.range 9 ×ˢ Finset.range 9).filter
      (fun p => g p.1 p.2 = 0) := by
    simp [Finset.mem_filter, h0]
  have hset : ((Finset.range 9 ×ˢ Finset.range 9).filter
        fun p => setCell g r c 0 p.1 p.2 = 0)
      = insert (r, c) ((Finset.range 9 ×ˢ Finset.range 9).filter
        fun p => g p.1 p.2 = 0) := by
    ext p
    simp only [Finset.mem_filter, Finset.mem_insert, Finset.mem_product,
      Finset.mem_range]
    constructor
    · rintro ⟨⟨hp1, hp2⟩, hz⟩
      by_cases hpc : p = (r, c)
      · exact Or.inl hpc
      · have hne : ¬(p.1 = r ∧ p.2 = c) := fun he => hpc (Prod.ext_iff.mpr he)
        rw [setCell_ne g r c 0 p.1 p.2 hne] at hz
        exact Or.inr ⟨⟨hp1, hp2⟩, hz⟩
    · rintro (hpc | ⟨⟨hp1, hp2⟩, hz⟩)
      · subst hpc
        exact ⟨⟨hr, hc⟩, setCell_self g r c 0⟩
      · by_cases hpc : p = (r, c)
        · subst hpc
          exact ⟨⟨hr, hc⟩, setCell_self g r c 0⟩
        · have hne : ¬(p.1 = r ∧ p.2 = c) := fun he => hpc (Prod.ext_iff.mpr he)
          rw [setCell_ne g r c 0 p.1 p.2 hne]
          exact ⟨⟨hp1, hp2⟩, hz⟩
  unfold numEmpty
  rw [hset, Finset.card_insert_of_not_mem hnot]

theorem numEmpty_eq_zero {g : Grid} (h : Filled9 g) : numEmpty g = 0 := by
  unfold numEmpty
  rw [Finset.card_eq_zero, Finset.filter_eq_empty_iff]
  rintro ⟨a, b⟩ hab
  simp only [Finset.mem_product, Finset.mem_range] at hab
  exact h a hab.1 b hab.2

/-! Placement preserves consistency. -/

theorem consistent_setCell {g : Grid} {r c n : Nat} (hg : ConsistentG g)
    (hr : r < 9) (hc : c < 9) (h0 : g r c = 0)
    (hv : is_valid g r c n = true) : ConsistentG (setCell g r c n) := by
  intro r' hr' c' hc' hne0
  by_cases hcell : r' = r ∧ c' = c
  · obtain ⟨rfl, rfl⟩ := hcell
    rw [setCell_self]
    rw [is_valid_setCell_self g r' c' n n hr' hc']
    exact hv
  · have heq : setCell g r c n r' c' = g r' c' := setCell_ne g r c n r' c' hcell
    rw [heq] at hne0 ⊢
    have hold := hg r' hr' c' hc' hne0
    rw [is_valid_iff hr' hc'] at hold ⊢
    intro r2 hr2 c2 hc2 hu hne2
    by_cases hcell2 : r2 = r ∧ c2 = c
    · obtain ⟨rfl, rfl⟩ := hcell2
      rw [setCell_self]
      have hne' := (is_valid_iff hr2 hc2).mp hv r' hr' c' hc' (sameUnit_symm hu) hcell
      exact hne'.symm
    · rw [setCell_ne g r c n r2 c2 hcell2]
      exact hold r2 hr2 c2 hc2 hu hne2

/-! Restoration: a failed solver call leaves the grid exactly as it found it. -/

theorem tryNums_restore (rec : Grid → Bool × Grid)
    (hrec : ∀ g', (rec g').1 = false → (rec g').2 = g')
    (g : Grid) (r c : Nat) (h0 : g r c = 0) :
    ∀ l : List Nat, (tryNums rec g r c l).1 = false →
      (tryNums rec g r c l).2 = g := by
  intro l
  induction l with
  | nil => intro _; rfl
  | cons n rest ih =>
    intro hfail
    simp only [tryNums] at hfail ⊢
    by_cases hv : is_valid g r c n = true
    · rw [if_pos hv] at hfail ⊢
      rcases hres : rec (setCell g r c n) with ⟨b, g2⟩
      rw [hres] at hfail
      cases b
      · dsimp only at hfail ⊢
        have hg2 : g2 = setCell g r c n := by
          have h' := hrec (setCell g r c n) (by rw [hres])
          rw [hres] at h'
          exact h'
        rw [hg2, setCell_cancel g r c n h0] at hfail ⊢
        exact ih hfail
      · simp at hfail
    · rw [if_neg hv] at hfail ⊢
      exact ih hfail

theorem solveFuel_restore : ∀ (fuel : Nat) (g : Grid),
    (solveFuel fuel g).1 = false → (solveFuel fuel g).2 = g := by
  intro fuel
  induction fuel with
  | zero => intro g _; rfl
  | succ fuel ih =>
    intro g hfail
    simp only [solveFuel] at hfail ⊢
    cases hfe : firstEmpty g with
    | none => rw [hfe] at hfail
    | some p =>
      obtain ⟨r, c⟩ := p
      rw [hfe] at hfail
      dsimp only at hfail ⊢
      exact tryNums_restore (solveFuel fuel) ih g r c
        (firstEmpty_some hfe).2.2 nums1to9 hfail

/-! Soundness: a successful solver run extends the grid, fills it, places only
values 1..9, and preserves consistency. -/

theorem tryNums_sound (rec : Grid → Bool × Grid)
    (hrecS : ∀ g', (rec g').1 = true → SoundAt g' (rec g').2)
    (hrecR : ∀ g', (rec g').1 = false → (rec g').2 = g')
    (g : Grid) (r c : Nat) (hr : r < 9) (hc : c < 9) (h0 : g r c = 0) :
    ∀ l : List Nat, (∀ n ∈ l, 1 ≤ n ∧ n ≤ 9) →
      (tryNums rec g r c l).1 = true → SoundAt g (tryNums rec g r c l).2 := by
  intro l
  induction l with
  | nil => intro _ h; simp [tryNums] at h
  | cons n rest ih =>
    intro hl hsucc
    simp only [tryNums] at hsucc ⊢
    by_cases hv : is_valid g r c n = true
    · rw [if_pos hv] at hsucc ⊢
      rcases hres : rec (setCell g r c n) with ⟨b, g2⟩
      rw [hres] at hsucc
      cases b
      · dsimp only at hsucc ⊢
        have hg2 : g2 = setCell g r c n := by
          have h' := hrecR (setCell g r c n) (by rw [hres])
          rw [hres] at h'
          exact h'
        rw [hg2, setCell_cancel g r c n h0] at hsucc ⊢
        exact ih (fun m hm => hl m (List.mem_cons_of_mem _ hm)) hsucc
      · dsimp only
        have hS := hrecS (setCell g r c n) (by rw [hres])
        rw [hres] at hS
        dsimp only at hS
        obtain ⟨hTrans, hFill, hCons⟩ := hS
        have hn : 1 ≤ n ∧ n ≤ 9 := hl n (List.mem_cons_self n rest)
        refine ⟨?_, hFill, ?_⟩
        · intro r' hr' c' hc'
          rcases hTrans r' hr' c' hc' with he | hnew
          · by_cases hcell : r' = r ∧ c' = c
            · obtain ⟨rfl, rfl⟩ := hcell
              rw [setCell_self] at he
              exact Or.inr ⟨h0, by omega, by omega⟩
            · rw [setCell_ne g r c n r' c' hcell] at he
              exact Or.inl he
          · obtain ⟨hz, hge, hle⟩ := hnew
            by_cases hcell : r' = r ∧ c' = c
            · obtain ⟨rfl, rfl⟩ := hcell
              exact Or.inr ⟨h0, hge, hle⟩
            · rw [setCell_ne g r c n r' c' hcell] at hz
              exact Or.inr ⟨hz, hge, hle⟩
        · intro hg
          exact hCons (consistent_setCell hg hr hc h0 hv)
    · rw [if_neg hv] at hsucc ⊢
      exact ih (fun m hm => hl m (List.mem_cons_of_mem _ hm)) hsucc

theorem nums1to9_bounds : ∀ n ∈ nums1to9, 1 ≤ n ∧ n ≤ 9 := by
  intro n hn
  simp only [nums1to9, List.mem_cons, List.not_mem_nil, or_false] at hn
  rcases hn with rfl | rfl | rfl | rfl | rfl | rfl | rfl | rfl | rfl <;> omega

theorem solveFuel_sound : ∀ (fuel : Nat) (g : Grid),
    (solveFuel fuel g).1 = true → SoundAt g (solveFuel fuel g).2 := by
  intro fuel
  induction fuel with
  | zero => intro g h; simp [solveFuel] at h
  | succ fuel ih =>
    intro g hsucc
    simp only [solveFuel] at hsucc ⊢
    cases hfe : firstEmpty g with
    | none =>
      rw [hfe] at hsucc
      dsimp only at hsucc ⊢
      exact ⟨fun r _ c _ => Or.inl rfl, firstEmpty_none hfe, fun h => h⟩
    | some p =>
      obtain ⟨r, c⟩ := p
      rw [hfe] at hsucc
      dsimp only at hsucc ⊢
      obtain ⟨hr, hc, h0⟩ := firstEmpty_some hfe
      exact tryNums_sound (solveFuel fuel) ih (solveFuel_restore fuel) g r c hr hc
        h0 nums1to9 nums1to9_bounds hsucc

/-! Completeness: when some candidate in the list is valid and leads to a
successful recursive solve, the loop succeeds. -/

theorem tryNums_complete (rec : Grid → Bool × Grid)
    (hrecR : ∀ g', (rec g').1 = false → (rec g').2 = g')
    (g : Grid) (r c : Nat) (h0 : g r c = 0) :
    ∀ l : List Nat,
      (∃ n ∈ l, is_valid g r c n = true ∧ (rec (setCell g r c n)).1 = true) →
      (tryNums rec g r c l).1 = true := by
  intro l
  induction l with
  | nil => rintro ⟨n, hn, _⟩; simp at hn
  | cons m rest ih =>
    rintro ⟨n, hn, hnv, hns⟩
    simp only [tryNums]
    by_cases hv : is_valid g r c m = true
    · rw [if_pos hv]
      rcases hres : rec (setCell g r c m) with ⟨b, g2⟩
      cases b
      · dsimp only
        have hg2 : g2 = setCell g r c m := by
          have h' := hrecR (setCell g r c m) (by rw [hres])
          rw [hres] at h'
          exact h'
        have hnm : n ≠ m := by
          intro he
          subst he
          rw [hres] at hns
          simp at hns
        have hnrest : n ∈ rest := by
          rcases List.mem_cons.mp hn with he | h'
          · exact absurd he hnm
          · exact h'
        rw [hg2, setCell_cancel g r c m h0]
        exact ih ⟨n, hnrest, hnv, hns⟩
      · rfl
    · rw [if_neg hv]
      have hnm : n ≠ m := fun he => hv (he ▸ hnv)
      have hnrest : n ∈ rest := by
        rcases List.mem_cons.mp hn with he | h'
        · exact absurd he hnm
        · exact h'
      exact ih ⟨n, hnrest, hnv, hns⟩

/-! Completions: consequences used on both sides of the solver argument. -/

theorem completion_consistent {g S : Grid} (h : Completion g S) :
    ConsistentG g := by
  obtain ⟨⟨hfill, hwf, hcons⟩, hext⟩ := h
  intro r hr c hc h0
  rw [is_valid_iff hr hc]
  intro r' hr' c' hc' hu hne
  by_cases hz : g r' c' = 0
  · rw [hz]
    exact fun he => h0 he.symm
  · have e1 : S r' c' = g r' c' := hext r' hr' c' hc' hz
    have e2 : S r c = g r c := hext r hr c hc h0
    have hSv := hcons r hr c hc (by rw [e2]; exact h0)
    have h' := (is_valid_iff hr hc).mp hSv r' hr' c' hc' hu hne
    rw [e1, e2] at h'
    exact h'

theorem completion_isValid {g S : Grid} (h : Completion g S) {r c : Nat}
    (hr : r < 9) (hc : c < 9) :
    is_valid g r c (S r c) = true := by
  obtain ⟨⟨hfill, hwf, hcons⟩, hext⟩ := h
  rw [is_valid_iff hr hc]
  intro r' hr' c' hc' hu hne
  by_cases hz : g r' c' = 0
  · rw [hz]
    exact fun he => hfill r hr c hc he.symm
  · rw [← hext r' hr' c' hc' hz]
    have hSv := hcons r hr c hc (hfill r hr c hc)
    exact (is_valid_iff hr hc).mp hSv r' hr' c' hc' hu hne

theorem solveFuel_complete : ∀ (fuel : Nat) (g : Grid), numEmpty g < fuel →
    (∃ S, Completion g S) → (solveFuel fuel g).1 = true := by
  intro fuel
  induction fuel with
  | zero => intro g h; omega
  | succ fuel ih =>
    rintro g hfuel ⟨S, hS⟩
    simp only [solveFuel]
    cases hfe : firstEmpty g with
    | none => rfl
    | some p =>
      obtain ⟨r, c⟩ := p
      dsimp only
      obtain ⟨hr, hc, h0⟩ := firstEmpty_some hfe
      have hv1 : S r c ≠ 0 := hS.1.1 r hr c hc
      have hv9 : S r c ≤ 9 := hS.1.2.1 r hr c hc
      have hmem : S r c ∈ nums1to9 := by
        simp only [nums1to9, List.mem_cons, List.not_mem_nil, or_false]
        omega
      have hvalid := completion_isValid hS hr hc
      have hcompl : Completion (setCell g r c (S r c)) S := by
        refine ⟨hS.1, ?_⟩
        intro r' hr' c' hc' hz
        by_cases hcell : r' = r ∧ c' = c
        · obtain ⟨rfl, rfl⟩ := hcell
          rw [setCell_self]
        · rw [setCell_ne g r c _ r' c' hcell] at hz ⊢
          exact hS.2 r' hr' c' hc' hz
      have hlt : numEmpty (setCell g r c (S r c)) < fuel := by
        have h' := numEmpty_setCell_place hr hc h0 hv1
        omega
      have hrec := ih (setCell g r c (S r c)) hlt ⟨S, hcompl⟩
      exact tryNums_complete (solveFuel fuel) (solveFuel_restore fuel) g r c h0
        nums1to9 ⟨S r c, hmem, hvalid, hrec⟩

theorem filled_of_numEmpty_zero {g : Grid} (h : numEmpty g = 0) : Filled9 g := by
  intro r hr c hc hz
  have hmem : (r, c) ∈ (Finset.range 9 ×ˢ Finset.range 9).filter
      (fun p => g p.1 p.2 = 0) := by
    simp [Finset.mem_filter, Finset.mem_product, hr, hc, hz]
  unfold numEmpty at h
  rw [Finset.card_eq_zero] at h
  rw [h] at hmem
  exact Finset.not_mem_empty _ hmem

/-- A successful solver run on a consistent grid with in-range filled cells
produces a completion of that grid. -/
theorem solve_success_completion {g : Grid}
    (hwf9 : ∀ r < 9, ∀ c < 9, g r c ≠ 0 → g r c ≤ 9) (hcons : ConsistentG g)
    (hsucc : (solve_sudoku g).1 = true) :
    Completion g (solve_sudoku g).2 := by
  unfold solve_sudoku at hsucc ⊢
  obtain ⟨hTrans, hFill, hCons⟩ := solveFuel_sound 82 g hsucc
  refine ⟨⟨hFill, ?_, hCons hcons⟩, ?_⟩
  · intro r hr c hc
    rcases hTrans r hr c hc with he | hnew
    · by_cases hz : g r c = 0
      · exact absurd (he.trans hz) (hFill r hr c hc)
      · rw [he]
        exact hwf9 r hr c hc hz
    · exact hnew.2.2
  · intro r hr c hc hz
    rcases hTrans r hr c hc with he | hnew
    · exact he
    · exact absurd hnew.1 hz

/-- C1 (amended): for every well-formed 9x9 grid, (a) whenever the filled
cells admit a sudoku completion, solve succeeds and the resulting grid is a
full valid completion of the input; (b) whenever solve reports failure the
grid is restored to exactly its original contents; and (c) for a grid whose
cells are in range and whose filled cells are mutually consistent, if no
completion exists then solve reports failure and restores the grid. The
original claim's failure branch, stated for arbitrary grids, is refuted by
C1_counterexample: the solver never re-checks pre-filled cells, so a full but
conflicting grid admits no completion yet solve reports success. -/
theorem C1_theorem (g : Grid) :
    ((∃ S, Completion g S) →
      (solve_sudoku g).1 = true ∧ Completion g (solve_sudoku g).2) ∧
    ((solve_sudoku g).1 = false → (solve_sudoku g).2 = g) ∧
    (WellFormed g → ConsistentG g → (¬∃ S, Completion g S) →
      (solve_sudoku g).1 = false ∧ (solve_sudoku g).2 = g) := by
  refine ⟨?_, solveFuel_restore 82 g, ?_⟩
  · rintro ⟨S, hS⟩
    have hsucc : (solve_sudoku g).1 = true :=
      solveFuel_complete 82 g (by have := numEmpty_le g; omega) ⟨S, hS⟩
    refine ⟨hsucc, solve_success_completion ?_ (completion_consistent hS) hsucc⟩
    intro r hr c hc hz
    rw [← hS.2 r hr c hc hz]
    exact hS.1.2.1 r hr c hc
  · intro hwf hcons hno
    rcases Bool.eq_false_or_eq_true (solve_sudoku g).1 with ht | hf
    · exact absurd ⟨(solve_sudoku g).2,
        solve_success_completion (fun r hr c hc _ => hwf r hr c hc) hcons ht⟩ hno
    · exact ⟨hf, solveFuel_restore 82 g hf⟩

/-- C1 counterexample: gBad is full but holds two 2s in row 0, so it admits no
completion, yet the backtracking solver reports success on it: the claim's
failure branch is false for grids whose pre-filled cells conflict. -/
theorem C1_counterexample :
    (¬∃ S : Grid, Completion gBad S) ∧ (solve_sudoku gBad).1 = true := by
  constructor
  · rintro ⟨S, ⟨⟨hfill, hwf, hcons⟩, hext⟩⟩
    have e1 : S 0 0 = 2 := by
      have h' := hext 0 (by omega) 0 (by omega) (by decide)
      rw [show gBad 0 0 = 2 from rfl] at h'
      exact h'
    have e2 : S 0 1 = 2 := by
      have h' := hext 0 (by omega) 1 (by omega) (by decide)
      rw [show gBad 0 1 = 2 from rfl] at h'
      exact h'
    have hv := hcons 0 (by omega) 0 (by omega) (by rw [e1]; omega)
    have h' := (is_valid_iff (by omega) (by omega)).mp hv 0 (by omega) 1
      (by omega) (Or.inl rfl) (by simp)
    rw [e1, e2] at h'
    exact h' rfl
  · rfl

/-- C1 witness: on the concrete puzzle gW (one empty cell, completion gSol),
the solver succeeds and returns a valid completion. -/
theorem C1_witness : (solve_sudoku gW).1 = true ∧
    Completion gW (solve_sudoku gW).2 :=
  (C1_theorem gW).1 ⟨gSol, by decide⟩

/-- C10: on any grid with no empty cell the solver immediately reports success
and returns the grid unchanged, with no validity requirement on the filled
cells: the solver checks only cells it places itself, which is why the
separate validation pass exists. -/
theorem C10_theorem (g : Grid) (h : numEmpty g = 0) : solve_sudoku g = (true, g) := by
  have hfe : firstEmpty g = none := by
    apply List.find?_eq_none.mpr
    intro p hp
    have hb := mem_cellsRM.mp hp
    simp only [beq_iff_eq]
    exact filled_of_numEmpty_zero h p.1 hb.1 p.2 hb.2
  have hstep : solve_sudoku g = match firstEmpty g with
      | none => (true, g)
      | some (r, c) => tryNums (solveFuel 81) g r c nums1to9 := rfl
  rw [hstep, hfe]

/-- C10 witness: the full grid gBad violates the row constraints, and the
solver still returns success without modifying it. -/
theorem C10_witness : solve_sudoku gBad = (true, gBad) :=
  C10_theorem gBad (by decide)

/-! From pairwise distinctness to a permutation of 1..9. -/

theorem nine_perm (f : Nat → Nat) (h1 : ∀ i < 9, 1 ≤ f i ∧ f i ≤ 9)
    (h2 : ∀ i < 9, ∀ j < 9, f i = f j → i = j) :
    ∀ v, 1 ≤ v → v ≤ 9 → ∃ i < 9, f i = v := by
  intro v hv1 hv9
  have hinj : Set.InjOn f ↑(Finset.range 9) := by
    intro a ha b hb hab
    simp only [Finset.coe_range, Set.mem_Iio] at ha hb
    exact h2 a ha b hb hab
  have hsub : (Finset.range 9).image f ⊆ Finset.Icc 1 9 := by
    intro x hx
    simp only [Finset.mem_image, Finset.mem_range] at hx
    obtain ⟨i, hi, rfl⟩ := hx
    simpa [Finset.mem_Icc] using h1 i hi
  have hcard : ((Finset.range 9).image f).card = 9 := by
    rw [Finset.card_image_of_injOn hinj, Finset.card_range]
  have heq : (Finset.range 9).image f = Finset.Icc 1 9 := by
    apply Finset.eq_of_subset_of_card_le hsub
    rw [hcard]
    simp [Nat.card_Icc]
  have hv : v ∈ (Finset.range 9).image f := by
    rw [heq]
    simp only [Finset.mem_Icc]
    omega
  simpa [Finset.mem_image, Finset.mem_range] using hv

theorem solved_distinct {g : Grid} (hcons : ConsistentG g) {r c r' c' : Nat}
    (hr : r < 9) (hc : c < 9) (hr' : r' < 9) (hc' : c' < 9)
    (h0 : g r c ≠ 0) (hu : SameUnit r c r' c') (hne : ¬(r' = r ∧ c' = c)) :
    g r' c' ≠ g r c :=
  (is_valid_iff hr hc).mp (hcons r hr c hc h0) r' hr' c' hc' hu hne

theorem solved_unitsPerm {g : Grid} (h : Solved g) : UnitsPerm g := by
  obtain ⟨hfill, hwf, hcons⟩ := h
  refine ⟨?_, ?_, ?_⟩
  · intro r hr v hv1 hv9
    have hbound : ∀ i < 9, 1 ≤ g r i ∧ g r i ≤ 9 := by
      intro i hi
      have ha := hfill r hr i hi
      have hb := hwf r hr i hi
      omega
    have hdist : ∀ i < 9, ∀ j < 9, g r i = g r j → i = j := by
      intro i hi j hj hij
      by_contra hne
      exact solved_distinct hcons hr hj hr hi (hfill r hr j hj) (Or.inl rfl)
        (by tauto) hij
    exact ⟨nine_perm (fun i => g r i) hbound hdist v hv1 hv9,
      fun c1 hc1 c2 hc2 h1 h2 => hdist c1 hc1 c2 hc2 (h1.trans h2.symm)⟩
  · intro c hc v hv1 hv9
    have hbound : ∀ i < 9, 1 ≤ g i c ∧ g i c ≤ 9 := by
      intro i hi
      have ha := hfill i hi c hc
      have hb := hwf i hi c hc
      omega
    have hdist : ∀ i < 9, ∀ j < 9, g i c = g j c → i = j := by
      intro i hi j hj hij
      by_contra hne
      exact solved_distinct hcons hj hc hi hc (hfill j hj c hc)
        (Or.inr (Or.inl rfl)) (by tauto) hij
    exact ⟨nine_perm (fun i => g i c) hbound hdist v hv1 hv9,
      fun r1 hr1 r2 hr2 h1 h2 => hdist r1 hr1 r2 hr2 (h1.trans h2.symm)⟩
  · intro b hb v hv1 hv9
    have hcellb : ∀ i < 9, (boxCell b i).1 < 9 ∧ (boxCell b i).2 < 9 := by
      intro i hi
      unfold boxCell
      constructor <;> dsimp only <;> omega
    have hbound : ∀ i < 9, 1 ≤ g (boxCell b i).1 (boxCell b i).2 ∧
        g (boxCell b i).1 (boxCell b i).2 ≤ 9 := by
      intro i hi
      have ha := hfill _ (hcellb i hi).1 _ (hcellb i hi).2
      have hb' := hwf _ (hcellb i hi).1 _ (hcellb i hi).2
      omega
    have hdist : ∀ i < 9, ∀ j < 9,
        g (boxCell b i).1 (boxCell b i).2 = g (boxCell b j).1 (boxCell b j).2 →
        i = j := by
      intro i hi j hj hij
      by_contra hne
      have hcellne : ¬((boxCell b i).1 = (boxCell b j).1 ∧
          (boxCell b i).2 = (boxCell b j).2) := by
        unfold boxCell
        dsimp only
        omega
      have hu : SameUnit (boxCell b j).1 (boxCell b j).2
          (boxCell b i).1 (boxCell b i).2 := by
        right; right
        unfold boxCell
        dsimp only
        constructor <;> omega
      exact solved_distinct hcons (hcellb j hj).1 (hcellb j hj).2
        (hcellb i hi).1 (hcellb i hi).2
        (hfill _ (hcellb j hj).1 _ (hcellb j hj).2) hu hcellne hij
    exact ⟨nine_perm (fun i => g (boxCell b i).1 (boxCell b i).2) hbound hdist
      v hv1 hv9,
      fun i hi j hj h1 h2 => hdist i hi j hj (h1.trans h2.symm)⟩

/-! The validation pass checks exactly mutual consistency of the filled cells. -/

theorem validate_board_iff (g : Grid) :
    validate_board g = true ↔ ConsistentG g := by
  unfold validate_board
  rw [List.all_eq_true]
  constructor
  · intro h r hr c hc h0
    have h' := h (r, c) (mem_cellsRM.mpr ⟨hr, hc⟩)
    simp only [Bool.or_eq_true, beq_iff_eq] at h'
    rcases h' with h' | h'
    · exact absurd h' h0
    · rw [is_valid_setCell_self g r c _ 0 hr hc] at h'
      exact h'
  · intro h p hp
    obtain ⟨hr, hc⟩ := mem_cellsRM.mp hp
    simp only [Bool.or_eq_true, beq_iff_eq]
    by_cases h0 : g p.1 p.2 = 0
    · exact Or.inl h0
    · right
      rw [is_valid_setCell_self g p.1 p.2 _ 0 hr hc]
      exact h p.1 hr p.2 hc h0

/-! The seeded grid only holds values up to 9. -/

theorem getD_le9 {l : List Nat} (h : ∀ x ∈ l, x ≤ 9) (i : Nat) : l.getD i 0 ≤ 9 := by
  rcases Nat.lt_or_ge i l.length with hi | hi
  · rw [List.getD_eq_getElem l 0 hi]
    exact h _ (List.getElem_mem hi)
  · rw [List.getD_eq_default l 0 hi]
    decide

theorem fy_swap_le9 {l : List Nat} (h : ∀ x ∈ l, x ≤ 9) (i j : Nat) :
    ∀ x ∈ fy_swap l i j, x ≤ 9 := by
  intro x hx
  unfold fy_swap at hx
  rcases List.mem_or_eq_of_mem_set hx with hx' | rfl
  · rcases List.mem_or_eq_of_mem_set hx' with hx'' | rfl
    · exact h x hx''
    · exact getD_le9 h j
  · exact getD_le9 h i

theorem shuffle9_le9 (rng : Rng) (k : Nat) : ∀ x ∈ (shuffle9 rng k).1, x ≤ 9 := by
  have main : ∀ (il : List Nat) (st : List Nat × Nat), (∀ x ∈ st.1, x ≤ 9) →
      ∀ x ∈ (il.foldl (shuffle_step rng) st).1, x ≤ 9 := by
    intro il
    induction il with
    | nil => intro st h; exact h
    | cons i rest ih =>
      intro st h
      rw [List.foldl_cons]
      exact ih (shuffle_step rng st i)
        (fun x hx => fy_swap_le9 h i _ x hx)
  apply main
  intro x hx
  simp only [List.mem_cons, List.not_mem_nil, or_false] at hx
  rcases hx with rfl | rfl | rfl | rfl | rfl | rfl | rfl | rfl | rfl <;> omega

theorem placeBox_le9 {g : Grid} {box : Nat} {nums : List Nat}
    (hg : ∀ r c, g r c ≤ 9) (hn : ∀ x ∈ nums, x ≤ 9) :
    ∀ r c, placeBox g box nums r c ≤ 9 := by
  intro r c
  unfold placeBox
  split
  · exact getD_le9 hn _
  · exact hg r c

theorem seedDiagonal_le9 (rng : Rng) (k : Nat) :
    ∀ r c, (seedDiagonal rng k).1 r c ≤ 9 := by
  unfold seedDiagonal
  dsimp only
  exact placeBox_le9
    (placeBox_le9
      (placeBox_le9 (fun _ _ => Nat.zero_le 9) (shuffle9_le9 rng k))
      (shuffle9_le9 rng _))
    (shuffle9_le9 rng _)

theorem solve_sudoku_sound (g : Grid) (h : (solve_sudoku g).1 = true) :
    SoundAt g (solve_sudoku g).2 := solveFuel_sound 82 g h

/-- Whatever grid generation returns is fully filled with values at most 9. -/
theorem generate_full_board_spec : ∀ (fuel : Nat) (rng : Rng) (k : Nat)
    (g : Grid) (k' : Nat), generate_full_board fuel rng k = some (g, k') →
    Filled9 g ∧ WellFormed g := by
  intro fuel
  induction fuel with
  | zero => intro rng k g k' h; simp [generate_full_board] at h
  | succ fuel ih =>
    intro rng k g k' h
    rw [generate_full_board] at h
    by_cases hs : (solve_sudoku (seedDiagonal rng k).1).1 = true
    · rw [if_pos hs] at h
      rw [Option.some.injEq, Prod.mk.injEq] at h
      obtain ⟨hg, _⟩ := h
      obtain ⟨hTrans, hFill, _⟩ := solve_sudoku_sound (seedDiagonal rng k).1 hs
      subst hg
      refine ⟨hFill, ?_⟩
      intro r hr c hc
      rcases hTrans r hr c hc with he | hnew
      · rw [he]
        exact seedDiagonal_le9 rng k r c
      · exact hnew.2.2
    · rw [if_neg hs] at h
      exact ih rng _ g k' h

/-- C2: every solution grid installed by a successful new-game setup (full
grid generation followed by the validation pass) has each of 1..9 exactly
once in every row, every column, and every non-overlapping 3x3 box. -/
theorem C2_theorem : ∀ (fuel gfuel : Nat) (rng : Rng) (k ticks : Nat)
    (s : GameState) (p : GameState × Nat),
    new_game fuel gfuel rng k ticks s = some p → UnitsPerm p.1.solution := by
  intro fuel
  induction fuel with
  | zero => intro gfuel rng k ticks s p h; simp [new_game] at h
  | succ fuel ih =>
    intro gfuel rng k ticks s p h
    rw [new_game] at h
    cases hgen : generate_full_board gfuel rng k with
    | none => rw [hgen] at h; simp at h
    | some q =>
      obtain ⟨sol, k1⟩ := q
      rw [hgen] at h
      dsimp only at h
      by_cases hval : validate_board sol = true
      · rw [if_pos hval] at h
        rw [Option.some.injEq] at h
        subst h
        have hsolution : (install_puzzle s sol rng k1 ticks).1.solution = sol := rfl
        rw [hsolution]
        obtain ⟨hfill, hwf⟩ := generate_full_board_spec gfuel rng k sol k1 hgen
        exact solved_unitsPerm ⟨hfill, hwf, (validate_board_iff sol).mp hval⟩
      · rw [if_neg hval] at h
        exact ih gfuel rng k1 ticks s p h

set_option maxRecDepth 40000 in
/-- C2 witness: a concrete full new-game setup (entropy stream rngW) succeeds,
and its installed solution grid satisfies the permutation property. -/
theorem C2_witness :
    UnitsPerm (((new_game 1 1 rngW 0 0 initState).getD (initState, 0)).1).solution := by
  cases h : new_game 1 1 rngW 0 0 initState with
  | none =>
    have hs : (new_game 1 1 rngW 0 0 initState).isSome = true := by rfl
    rw [h] at hs
    simp at hs
  | some p =>
    rw [Option.getD_some]
    exact C2_theorem 1 1 rngW 0 0 initState p h

/-! Carving: helper facts about the cell list. -/

theorem getD_mem_pair {l : List (Nat × Nat)} {i : Nat} (h : i < l.length) :
    l.getD i (0, 0) ∈ l := by
  rw [List.getD_eq_getElem l (0, 0) h]
  exact List.getElem_mem h

theorem nodup_getD_not_mem_eraseIdx : ∀ (l : List (Nat × Nat)) (i : Nat),
    l.Nodup → i < l.length → l.getD i (0, 0) ∉ l.eraseIdx i := by
  intro l
  induction l with
  | nil => intro i _ h; simp at h
  | cons a t ih =>
    intro i hnd hi
    obtain ⟨hat, hndt⟩ := List.nodup_cons.mp hnd
    cases i with
    | zero => simpa using hat
    | succ i =>
      have hi' : i < t.length := by simpa using hi
      intro hmem
      simp only [List.getD_cons_succ, List.eraseIdx_cons_succ, List.mem_cons]
        at hmem
      rcases hmem with he | hm
      · exact hat (he ▸ getD_mem_pair hi')
      · exact ih i hndt hi' hm

theorem cellsRM_nodup : cellsRM.Nodup := by
  unfold cellsRM
  have hinj : Function.Injective (fun k : Nat => (k / 9, k % 9)) := by
    intro a b h
    simp only [Prod.mk.injEq] at h
    omega
  exact (List.nodup_range 81).map hinj

theorem cellsRM_length : cellsRM.length = 81 := by
  simp [cellsRM]

/-- Carving pops n distinct in-range cells off the list and zeroes each, so
the number of empty cells grows by exactly n. -/
theorem remove_numbers_numEmpty : ∀ (n : Nat) (cells : List (Nat × Nat))
    (b : Grid) (rng : Rng) (k : Nat), cells.Nodup →
    (∀ p ∈ cells, p.1 < 9 ∧ p.2 < 9 ∧ b p.1 p.2 ≠ 0) →
    n ≤ cells.length →
    numEmpty (remove_numbers n cells b rng k).1 = numEmpty b + n := by
  intro n
  induction n with
  | zero => intro cells b rng k _ _ _; rfl
  | succ n ih =>
    intro cells b rng k hnd hmem hlen
    rw [remove_numbers]
    have hne : ¬(cells = []) := by
      intro he
      subst he
      simp at hlen
    rw [if_neg hne]
    dsimp only
    have hlenpos : 0 < cells.length := by
      cases cells
      · exact absurd rfl hne
      · simp
    set idx := randint 0 (cells.length - 1) (getrandbits30 rng k) with hidxdef
    set p := cells.getD idx (0, 0) with hpdef
    have hidxlt : idx < cells.length := by
      rw [hidxdef]
      unfold randint
      have hm := Nat.mod_lt (getrandbits30 rng k)
        (show 0 < cells.length - 1 - 0 + 1 by omega)
      omega
    have hpmem : p ∈ cells := getD_mem_pair hidxlt
    obtain ⟨hp1, hp2, hpz⟩ := hmem p hpmem
    have hstep := numEmpty_setCell_zero hp1 hp2 hpz
    have hsub : (cells.eraseIdx idx).Sublist cells :=
      List.eraseIdx_sublist cells idx
    have hlen' := List.length_eraseIdx_of_lt hidxlt
    have hrec := ih (cells.eraseIdx idx) (setCell b p.1 p.2 0) rng (k + 1)
      (hsub.nodup hnd) ?_ ?_
    · rw [hrec, hstep]
      omega
    · intro q hq
      have hqcells : q ∈ cells := hsub.mem hq
      obtain ⟨hq1, hq2, hqz⟩ := hmem q hqcells
      refine ⟨hq1, hq2, ?_⟩
      have hqnep : q ≠ p := by
        intro he
        apply nodup_getD_not_mem_eraseIdx cells idx hnd hidxlt
        rw [← hpdef]
        exact he ▸ hq
      rw [setCell_ne b p.1 p.2 0 q.1 q.2
        (fun hcell => hqnep (Prod.ext_iff.mpr hcell))]
      exact hqz
    · omega

/-- Carving only clears cells: a cell still non-zero kept its original value. -/
theorem remove_numbers_extends : ∀ (n : Nat) (cells : List (Nat × Nat))
    (b : Grid) (rng : Rng) (k : Nat) (r c : Nat),
    (remove_numbers n cells b rng k).1 r c ≠ 0 →
    (remove_numbers n cells b rng k).1 r c = b r c := by
  intro n
  induction n with
  | zero => intro cells b rng k r c _; rfl
  | succ n ih =>
    intro cells b rng k r c hz
    rw [remove_numbers] at hz ⊢
    by_cases hne : cells = []
    · rw [if_pos hne] at hz ⊢
    · rw [if_neg hne] at hz ⊢
      dsimp only at hz ⊢
      have h1 := ih (cells.eraseIdx _) (setCell b _ _ 0) rng (k + 1) r c hz
      rw [h1] at hz ⊢
      by_cases hcell : r = (cells.getD
          (randint 0 (cells.length - 1) (getrandbits30 rng k)) (0, 0)).1 ∧
          c = (cells.getD
          (randint 0 (cells.length - 1) (getrandbits30 rng k)) (0, 0)).2
      · obtain ⟨rfl, rfl⟩ := hcell
        rw [setCell_self] at hz
        exact absurd rfl hz
      · exact setCell_ne b _ _ 0 r c hcell

/-- C4: carving a fully solved grid at difficulty d < 3 leaves exactly
remove_count d empty cells (Easy 40, Medium 50, Hard 60), keeps every
non-zero cell equal to the solution, and the installed given mask is true
exactly at the cells left non-zero. -/
theorem C4_theorem (s : GameState) (sol : Grid) (rng : Rng) (k ticks : Nat)
    (hd : s.difficulty < 3) (hfill : Filled9 sol) :
    numEmpty ((install_puzzle s sol rng k ticks).1).board =
      remove_count s.difficulty ∧
    (∀ r < 9, ∀ c < 9, ((install_puzzle s sol rng k ticks).1).board r c ≠ 0 →
      ((install_puzzle s sol rng k ticks).1).board r c = sol r c) ∧
    (∀ r c, ((install_puzzle s sol rng k ticks).1).given r c = true ↔
      ((install_puzzle s sol rng k ticks).1).board r c ≠ 0) := by
  have hboard : ((install_puzzle s sol rng k ticks).1).board =
      (remove_numbers (remove_count s.difficulty) cellsRM sol rng k).1 := rfl
  refine ⟨?_, ?_, ?_⟩
  · rw [hboard]
    have hcount : remove_count s.difficulty ≤ 81 := by
      have h3 : s.difficulty = 0 ∨ s.difficulty = 1 ∨ s.difficulty = 2 := by omega
      rcases h3 with h | h | h <;> rw [h] <;> decide
    have h1 := remove_numbers_numEmpty (remove_count s.difficulty) cellsRM sol
      rng k cellsRM_nodup
      (fun p hp => ⟨(mem_cellsRM.mp hp).1, (mem_cellsRM.mp hp).2,
        hfill p.1 (mem_cellsRM.mp hp).1 p.2 (mem_cellsRM.mp hp).2⟩)
      (by rw [cellsRM_length]; exact hcount)
    rw [h1, numEmpty_eq_zero hfill]
    omega
  · intro r _ c _
    rw [hboard]
    exact remove_numbers_extends _ _ _ _ _ r c
  · intro r c
    rw [hboard]
    have hgiven : ((install_puzzle s sol rng k ticks).1).given r c =
        ((remove_numbers (remove_count s.difficulty) cellsRM sol rng k).1 r c
          != 0) := rfl
    rw [hgiven]
    simp [bne_iff_ne]

/-- C4 witness: carving gSol at Easy difficulty with the concrete stream rngW
leaves exactly 40 empty cells, sub-grid agreement, and the given mask law. -/
theorem C4_witness :
    numEmpty ((install_puzzle sPlay gSol rngW 0 0).1).board =
      remove_count sPlay.difficulty ∧
    (∀ r < 9, ∀ c < 9, ((install_puzzle sPlay gSol rngW 0 0).1).board r c ≠ 0 →
      ((install_puzzle sPlay gSol rngW 0 0).1).board r c = gSol r c) ∧
    (∀ r c, ((install_puzzle sPlay gSol rngW 0 0).1).given r c = true ↔
      ((install_puzzle sPlay gSol rngW 0 0).1).board r c ≠ 0) :=
  C4_theorem sPlay gSol rngW 0 0 (by decide) (by decide)

/-! State machine frame lemmas. -/

theorem to_gameover_fields (s : GameState) :
    (to_gameover s).board = s.board ∧ (to_gameover s).solution = s.solution ∧
    (to_gameover s).given = s.given ∧ (to_gameover s).cursor_x = s.cursor_x ∧
    (to_gameover s).cursor_y = s.cursor_y ∧
    (to_gameover s).mistakes = s.mistakes ∧ (to_gameover s).time = s.time ∧
    (to_gameover s).start_time = s.start_time ∧
    (to_gameover s).difficulty = s.difficulty ∧
    (to_gameover s).screen = Screen.gameover := by
  unfold to_gameover
  dsimp only
  split <;>
    exact ⟨rfl, rfl, rfl, rfl, rfl, rfl, rfl, rfl, rfl, rfl⟩

theorem to_pause_fields (s : GameState) :
    (to_pause s).board = s.board ∧ (to_pause s).solution = s.solution ∧
    (to_pause s).given = s.given ∧ (to_pause s).cursor_x = s.cursor_x ∧
    (to_pause s).cursor_y = s.cursor_y ∧ (to_pause s).mistakes = s.mistakes ∧
    (to_pause s).time = s.time ∧ (to_pause s).start_time = s.start_time ∧
    (to_pause s).difficulty = s.difficulty ∧
    (to_pause s).hiscores = s.hiscores ∧
    (to_pause s).screen = Screen.pause :=
  ⟨rfl, rfl, rfl, rfl, rfl, rfl, rfl, rfl, rfl, rfl, rfl⟩

/-- Behavior of place_number on a non-given cursor cell: the value is written,
a mistake is counted exactly for a wrong non-zero value, and the mask, the
solution and the cursor are untouched. -/
theorem place_number_not_given (s : GameState) (num : Nat)
    (hg : s.given s.cursor_y s.cursor_x = false) :
    (place_number s num).board = setCell s.board s.cursor_y s.cursor_x num ∧
    (place_number s num).mistakes = s.mistakes +
      (if num ≠ 0 ∧ num ≠ s.solution s.cursor_y s.cursor_x then 1 else 0) ∧
    (place_number s num).given = s.given ∧
    (place_number s num).solution = s.solution ∧
    (place_number s num).cursor_x = s.cursor_x ∧
    (place_number s num).cursor_y = s.cursor_y := by
  unfold place_number
  rw [if_neg (by simp [hg])]
  dsimp only
  by_cases hmk : num ≠ 0 ∧ num ≠ s.solution s.cursor_y s.cursor_x
  · simp only [if_pos hmk]
    split
    · exact ⟨(to_gameover_fields _).1, (to_gameover_fields _).2.2.2.2.2.1,
        (to_gameover_fields _).2.2.1, (to_gameover_fields _).2.1,
        (to_gameover_fields _).2.2.2.1, (to_gameover_fields _).2.2.2.2.1⟩
    · exact ⟨rfl, rfl, rfl, rfl, rfl, rfl⟩
  · simp only [if_neg hmk]
    split
    · exact ⟨(to_gameover_fields _).1, (to_gameover_fields _).2.2.2.2.2.1,
        (to_gameover_fields _).2.2.1, (to_gameover_fields _).2.1,
        (to_gameover_fields _).2.2.2.1, (to_gameover_fields _).2.2.2.2.1⟩
    · exact ⟨rfl, rfl, rfl, rfl, rfl, rfl⟩

/-- Timer fields are untouched by place_number. -/
theorem place_number_time (s : GameState) (num : Nat) :
    (place_number s num).time = s.time ∧
    (place_number s num).start_time = s.start_time := by
  unfold place_number
  split
  · exact ⟨rfl, rfl⟩
  · dsimp only
    split <;> split
    · exact ⟨(to_gameover_fields _).2.2.2.2.2.2.1,
        (to_gameover_fields _).2.2.2.2.2.2.2.1⟩
    · exact ⟨rfl, rfl⟩
    · exact ⟨(to_gameover_fields _).2.2.2.2.2.2.1,
        (to_gameover_fields _).2.2.2.2.2.2.2.1⟩
    · exact ⟨rfl, rfl⟩

/-! Preservation of the given-cell invariant by each operation. -/

theorem invGiven_to_gameover {s : GameState} (h : InvGiven s) :
    InvGiven (to_gameover s) := by
  intro r hr c hc hgv
  rw [(to_gameover_fields s).2.2.1] at hgv
  rw [(to_gameover_fields s).1, (to_gameover_fields s).2.1]
  exact h r hr c hc hgv

theorem invGiven_place (s : GameState) (num : Nat) (h : InvGiven s) :
    InvGiven (place_number s num) := by
  by_cases hg : s.given s.cursor_y s.cursor_x = true
  · unfold place_number
    rw [if_pos hg]
    exact h
  · have hgf : s.given s.cursor_y s.cursor_x = false := by
      simpa using hg
    obtain ⟨hboard, _, hgiv, hsol, _, _⟩ := place_number_not_given s num hgf
    intro r hr c hc hgv
    rw [hgiv] at hgv
    rw [hboard, hsol]
    by_cases hcell : r = s.cursor_y ∧ c = s.cursor_x
    · obtain ⟨rfl, rfl⟩ := hcell
      rw [hgf] at hgv
      exact absurd hgv (by simp)
    · rw [setCell_ne s.board _ _ num r c hcell]
      exact h r hr c hc hgv

theorem invGiven_hint (s : GameState) (h : InvGiven s) : InvGiven (hint s) := by
  unfold hint
  split
  · exact h
  · dsimp only
    have hX : InvGiven { s with
        board := setCell s.board s.cursor_y s.cursor_x (s.solution s.cursor_y s.cursor_x) } := by
      intro r hr c hc hgv
      dsimp only at hgv ⊢
      by_cases hcell : r = s.cursor_y ∧ c = s.cursor_x
      · obtain ⟨rfl, rfl⟩ := hcell
        rw [setCell_self]
      · rw [setCell_ne _ _ _ _ r c hcell]
        exact h r hr c hc hgv
    split
    · exact invGiven_to_gameover hX
    · exact hX

theorem invGiven_handle_play_b (s : GameState) (h : InvGiven s) :
    InvGiven (handle_play_b s) := by
  unfold handle_play_b
  split
  · exact h
  · dsimp only
    split
    · exact invGiven_place _ _ h
    · exact h

theorem invGiven_handle_play (t : Nat) (inp : Input) (s : GameState)
    (h : InvGiven s) : InvGiven (handle_play t inp s) := by
  unfold handle_play
  dsimp only
  have h1 : InvGiven { s with time := (t - s.start_time) / 1000 } := h
  split
  · exact h1
  · split
    · exact h1
    · split
      · exact h1
      · split
        · exact h1
        · split
          · exact h1
          · split
            · exact invGiven_handle_play_b _ h1
            · exact h1

theorem invGiven_handle_pause (inp : Input) (s : GameState) (h : InvGiven s) :
    InvGiven (handle_pause inp s) := by
  unfold handle_pause
  split
  · exact h
  · split
    · exact h
    · exact h

theorem invGiven_install (s : GameState) (sol : Grid) (rng : Rng)
    (k ticks : Nat) : InvGiven (install_puzzle s sol rng k ticks).1 := by
  intro r hr c hc hgv
  have hb : ((install_puzzle s sol rng k ticks).1).board =
      (remove_numbers (remove_count s.difficulty) cellsRM sol rng k).1 := rfl
  have hs : ((install_puzzle s sol rng k ticks).1).solution = sol := rfl
  have hg : ((install_puzzle s sol rng k ticks).1).given r c =
      ((remove_numbers (remove_count s.difficulty) cellsRM sol rng k).1 r c
        != 0) := rfl
  have hne : (remove_numbers (remove_count s.difficulty) cellsRM sol rng k).1
      r c ≠ 0 := by
    rw [hg] at hgv
    simpa using hgv
  rw [hb, hs]
  exact remove_numbers_extends _ _ _ _ _ r c hne

/-- C3: the invariant that a given cell always holds its solution value is
established by puzzle installation (the given mask marks exactly the uncarved
cells, which still equal the solution) and preserved by every player
operation: value entry, hint, cursor movement, the screen transitions, and
the per-frame play and pause handlers. -/
theorem C3_theorem :
    (∀ (s : GameState) (sol : Grid) (rng : Rng) (k ticks : Nat),
      InvGiven (install_puzzle s sol rng k ticks).1) ∧
    (∀ (s : GameState) (num : Nat), InvGiven s →
      InvGiven (place_number s num)) ∧
    (∀ s : GameState, InvGiven s → InvGiven (hint s)) ∧
    (∀ (s : GameState) (dx dy : Int), InvGiven s →
      InvGiven (move_cursor s dx dy)) ∧
    (∀ s : GameState, InvGiven s → InvGiven (to_pause s)) ∧
    (∀ s : GameState, InvGiven s → InvGiven (to_title s)) ∧
    (∀ s : GameState, InvGiven s → InvGiven (to_gameover s)) ∧
    (∀ (t : Nat) (inp : Input) (s : GameState), InvGiven s →
      InvGiven (handle_play t inp s)) ∧
    (∀ (inp : Input) (s : GameState), InvGiven s →
      InvGiven (handle_pause inp s)) :=
  ⟨invGiven_install, invGiven_place, invGiven_hint,
    fun _ _ _ h => h, fun _ h => h, fun _ h => h,
    fun _ h => invGiven_to_gameover h, invGiven_handle_play,
    invGiven_handle_pause⟩

/-- C3 witness: the invariant holds of the concrete session sPlay and is kept
by a concrete wrong entry into the open cell. -/
theorem C3_witness : InvGiven (place_number sPlay 4) :=
  C3_theorem.2.1 sPlay 4 (by decide)

/-- C5: place_number is a no-op on a given cell; otherwise it writes the value
at the cursor and increments mistakes by one exactly for a wrong non-zero
value, and re-entering the same wrong value counts again (no deduplication). -/
theorem C5_theorem (s : GameState) (num : Nat) :
    (s.given s.cursor_y s.cursor_x = true → place_number s num = s) ∧
    (s.given s.cursor_y s.cursor_x = false →
      (place_number s num).board = setCell s.board s.cursor_y s.cursor_x num ∧
      (place_number s num).mistakes = s.mistakes +
        (if num ≠ 0 ∧ num ≠ s.solution s.cursor_y s.cursor_x then 1 else 0)) ∧
    (s.given s.cursor_y s.cursor_x = false → num ≠ 0 →
      num ≠ s.solution s.cursor_y s.cursor_x →
      (place_number (place_number s num) num).mistakes = s.mistakes + 2) := by
  refine ⟨?_, ?_, ?_⟩
  · intro hg
    unfold place_number
    rw [if_pos hg]
  · intro hg
    obtain ⟨hboard, hmist, _, _, _, _⟩ := place_number_not_given s num hg
    exact ⟨hboard, hmist⟩
  · intro hg h0 hw
    obtain ⟨hboard, hmist, hgiv, hsol, hcx, hcy⟩ := place_number_not_given s num hg
    have hg2 : (place_number s num).given ((place_number s num).cursor_y)
        ((place_number s num).cursor_x) = false := by
      rw [hgiv, hcx, hcy]
      exact hg
    obtain ⟨_, hmist2, _, _, _, _⟩ :=
      place_number_not_given (place_number s num) num hg2
    rw [hmist2, hsol, hcx, hcy, hmist]
    rw [if_pos ⟨h0, hw⟩]

/-- C5 witness: entering the wrong value 4 into the open cell of sPlay writes
it and counts one mistake. -/
theorem C5_witness :
    (place_number sPlay 4).board = setCell sPlay.board sPlay.cursor_y
      sPlay.cursor_x 4 ∧
    (place_number sPlay 4).mistakes = sPlay.mistakes +
      (if 4 ≠ 0 ∧ 4 ≠ sPlay.solution sPlay.cursor_y sPlay.cursor_x
        then 1 else 0) :=
  (C5_theorem sPlay 4).2.1 (by decide)

/-! Timer behavior of the play and pause handlers. -/

theorem handle_play_b_time (s : GameState) :
    (handle_play_b s).time = s.time ∧
    (handle_play_b s).start_time = s.start_time := by
  unfold handle_play_b
  split
  · exact ⟨rfl, rfl⟩
  · dsimp only
    split
    · exact place_number_time _ _
    · exact ⟨rfl, rfl⟩

/-- C6 (amended): the pause transition changes only the screen field; the
pause handler never recomputes the timer; and every play frame recomputes the
elapsed time from the session's original start tick, which the handlers never
adjust - so wall-clock time spent paused is included in the elapsed time once
play resumes (refuting the claim that pause time is excluded, see
C6_counterexample). -/
theorem C6_theorem (s : GameState) (t : Nat) (inp : Input) :
    ((to_pause s).board = s.board ∧ (to_pause s).solution = s.solution ∧
      (to_pause s).given = s.given ∧ (to_pause s).cursor_x = s.cursor_x ∧
      (to_pause s).cursor_y = s.cursor_y ∧
      (to_pause s).mistakes = s.mistakes ∧ (to_pause s).time = s.time ∧
      (to_pause s).start_time = s.start_time ∧
      (to_pause s).difficulty = s.difficulty ∧
      (to_pause s).hiscores = s.hiscores ∧
      (to_pause s).screen = Screen.pause) ∧
    ((handle_pause inp s).time = s.time ∧
      (handle_pause inp s).start_time = s.start_time) ∧
    ((handle_play t inp s).time = (t - s.start_time) / 1000 ∧
      (handle_play t inp s).start_time = s.start_time) := by
  refine ⟨to_pause_fields s, ?_, ?_⟩
  · unfold handle_pause
    split
    · exact ⟨rfl, rfl⟩
    · split
      · exact ⟨rfl, rfl⟩
      · exact ⟨rfl, rfl⟩
  · unfold handle_play
    dsimp only
    split
    · exact ⟨rfl, rfl⟩
    · split
      · exact ⟨rfl, rfl⟩
      · split
        · exact ⟨rfl, rfl⟩
        · split
          · exact ⟨rfl, rfl⟩
          · split
            · exact ⟨rfl, rfl⟩
            · split
              · exact handle_play_b_time _
              · exact ⟨rfl, rfl⟩

/-- C6 counterexample: pausing at 2 s of play and resuming 99 s later yields
an elapsed time of 101 s on the next play frame, not the 2 s the claim's
frozen-timer reading predicts: time spent paused is counted after resume. -/
theorem C6_counterexample :
    pauseRun2.screen = Screen.pause ∧ pauseRun3.screen = Screen.play ∧
    pauseRun1.time = 1 ∧ pauseRun2.time = 2 ∧ pauseRun3.time = 2 ∧
    pauseRun4.time = 101 ∧ pauseRun4.time ≠ 2 :=
  ⟨rfl, rfl, rfl, rfl, rfl, rfl, by decide⟩

/-! List update lemmas for the score ledger. -/

theorem getD_set_self (l : List Nat) (i v d : Nat) (h : i < l.length) :
    (l.set i v).getD i d = v := by
  induction l generalizing i with
  | nil => simp at h
  | cons a t ih =>
    cases i with
    | zero => rfl
    | succ i => exact ih i (by simpa using h)

theorem getD_set_ne (l : List Nat) (i j v d : Nat) (h : i ≠ j) :
    (l.set i v).getD j d = l.getD j d := by
  induction l generalizing i j with
  | nil => rfl
  | cons a t ih =>
    cases i with
    | zero =>
      cases j with
      | zero => exact absurd rfl h
      | succ j => rfl
    | succ i =>
      cases j with
      | zero => rfl
      | succ j => exact ih i j (fun he => h (by rw [he]))

/-- C7 (amended): on entry to gameover the screen changes and the ledger slot
of the session's difficulty is overwritten with the session time exactly when
that time is strictly below the stored value; the other slots and all puzzle
fields are unchanged. The sentinel is the finite value 999999 rather than an
infinity, so a session of 999999 s or more never overwrites even an unset
record (see C7_counterexample). -/
theorem C7_theorem (s : GameState) (hd : s.difficulty < 3)
    (hl : s.hiscores.length = 3) :
    (to_gameover s).screen = Screen.gameover ∧
    (s.time < s.hiscores.getD s.difficulty 0 →
      (to_gameover s).hiscores = s.hiscores.set s.difficulty s.time ∧
      (to_gameover s).hiscores.getD s.difficulty 0 = s.time) ∧
    (¬s.time < s.hiscores.getD s.difficulty 0 →
      (to_gameover s).hiscores = s.hiscores) ∧
    (∀ d < 3, d ≠ s.difficulty →
      (to_gameover s).hiscores.getD d 0 = s.hiscores.getD d 0) ∧
    (to_gameover s).board = s.board ∧ (to_gameover s).mistakes = s.mistakes ∧
    (to_gameover s).time = s.time := by
  have hunfold : (to_gameover s).hiscores =
      if s.time < s.hiscores.getD s.difficulty 0 then
        s.hiscores.set s.difficulty s.time
      else s.hiscores := by
    unfold to_gameover
    dsimp only
    split
    · rfl
    · rfl
  refine ⟨(to_gameover_fields s).2.2.2.2.2.2.2.2.2, ?_, ?_, ?_,
    (to_gameover_fields s).1, (to_gameover_fields s).2.2.2.2.2.1,
    (to_gameover_fields s).2.2.2.2.2.2.1⟩
  · intro hlt
    rw [hunfold, if_pos hlt]
    exact ⟨rfl, getD_set_self s.hiscores s.difficulty s.time 0 (by omega)⟩
  · intro hge
    rw [hunfold, if_neg hge]
  · intro d _ hdne
    rw [hunfold]
    split
    · exact getD_set_ne s.hiscores s.difficulty d s.time 0
        (fun he => hdne he.symm)
    · rfl

/-- C7 witness: the spec's 120 / 150 / 90 Medium scenario, on the embedded
ledger: 120 is recorded over the sentinel, 150 is rejected, 90 overwrites. -/
theorem C7_witness :
    (to_gameover s120).hiscores = [999999, 120, 999999] ∧
    (to_gameover s150).hiscores = [999999, 120, 999999] ∧
    (to_gameover s90).hiscores = [999999, 90, 999999] ∧
    (to_gameover s120).screen = Screen.gameover := by
  have h := C7_theorem s120 (by decide) (by decide)
  refine ⟨?_, by decide, by decide, h.1⟩
  rw [(h.2.1 (by decide)).1]
  decide

/-- C7 counterexample: a 1000000 s Medium session over an all-sentinel ledger
is not recorded, though the claim's sentinel-as-infinity comparison says any
finite time beats an unset record. -/
theorem C7_counterexample :
    (to_gameover sLong).hiscores = [999999, 999999, 999999] ∧
    (to_gameover sLong).hiscores.getD 1 0 ≠ 1000000 := by
  exact ⟨by decide, by decide⟩

/-- C8 (code shape): the generation retry recursion of the source has no
retry counter, no cap and no error value: the zero-fuel case of the embedding
stands for the recursion still running (the source recursion has no such
exit), and each level either returns a solved grid or retries in full. -/
theorem C8_code_shape (rng : Rng) (k fuel : Nat) :
    generate_full_board 0 rng k = none ∧
    generate_full_board (fuel + 1) rng k =
      (if (solve_sudoku (seedDiagonal rng k).1).1 then
        some ((solve_sudoku (seedDiagonal rng k).1).2, (seedDiagonal rng k).2)
      else generate_full_board fuel rng (seedDiagonal rng k).2) := by
  refine ⟨rfl, ?_⟩
  rw [generate_full_board]

/-- C9 (amended): randint stays within [low, high] for any drawn sample on
either path, and the PRNG paths are total; the primary sample has the full 30
bits of width, but the fallback sample is masked to min n 24 bits, so a
30-bit request on the fallback path yields a sample below 2^24, not the
claimed 30-bit-wide sample (see C9_counterexample). -/
theorem C9_theorem (a b r n s : Nat) (hab : a ≤ b) :
    a ≤ randint a b r ∧ randint a b r ≤ b ∧
    getrandbits_urandom r 30 < 2 ^ 30 ∧
    (getrandbits_fallback n s).1 ≤ (1 <<< min n 24) - 1 ∧
    (getrandbits_fallback 30 s).1 < 2 ^ 24 := by
  refine ⟨Nat.le_add_right a _, ?_, ?_, ?_, ?_⟩
  · unfold randint
    have hm := Nat.mod_lt r (show 0 < b - a + 1 by omega)
    omega
  · exact Nat.mod_lt r (by decide)
  · exact @Nat.and_le_right (lcg_next s) ((1 <<< min n 24) - 1)
  · have h := @Nat.and_le_right (lcg_next s) ((1 <<< min 30 24) - 1)
    have he : ((1 <<< min 30 24) - 1 : Nat) = 2 ^ 24 - 1 := by decide
    unfold getrandbits_fallback
    dsimp only
    omega

/-- C9 witness: a concrete draw for the span 0..80 and both paths. -/
theorem C9_witness : 0 ≤ randint 0 80 12345 ∧ randint 0 80 12345 ≤ 80 ∧
    getrandbits_urandom 12345 30 < 2 ^ 30 ∧
    (getrandbits_fallback 7 0).1 ≤ (1 <<< min 7 24) - 1 ∧
    (getrandbits_fallback 30 0).1 < 2 ^ 24 :=
  C9_theorem 0 80 12345 7 0 (by decide)

/-- C9 counterexample: a 30-bit request on the fallback path is masked with
2^24 - 1, a strictly narrower mask than the 30-bit one the claim requires,
and the concrete first sample from state 0 is 12345. -/
theorem C9_counterexample :
    (getrandbits_fallback 30 0).1 = 12345 ∧
    ((1 <<< min 30 24) - 1 : Nat) = 2 ^ 24 - 1 ∧
    ((1 <<< min 30 24) - 1 : Nat) < 2 ^ 30 - 1 := by
  exact ⟨by decide, by decide, by decide⟩
